import Mathlib

/-
Verification of the AVI capture / playback core of the XIAO-ESP32S3-MJPEG2SD
firmware (appGlobals.cpp).  The C code is shallowly embedded: byte buffers
become lists of naturals (each < 256 in well-formed streams), 32-bit unsigned
arithmetic is made explicit with `% 2 ^ 32`, and each C function that a claim
refers to becomes a pure Lean function over an explicit state record.
-/

set_option maxRecDepth 4000
set_option linter.unusedTactic false
set_option linter.unreachableTactic false

/-! ## Byte-level primitives

`CHUNK_HDR` is the size of an AVI chunk header: `saveFrame` writes a 4-byte
marker (`memcpy(iSDbuffer+highPoint, dcBuf, 4)`) followed by a 4-byte
little-endian length (`memcpy(iSDbuffer+highPoint+4, &jpegSize, 4)`) and then
advances the cursor by `CHUNK_HDR`, so `CHUNK_HDR = 8`. -/

def CHUNK_HDR : Nat := 8

/-- The 32-bit value of the frame chunk marker, from `getNextFrame`:
`const uint32_t dcVal = 0x63643030; // value of 00dc marker`. -/
def dcVal : Nat := 0x63643030

/-- The 4 marker bytes written by `saveFrame` (`dcBuf`), i.e. the ASCII bytes
of the string 00dc, which read back little-endian as `dcVal`. -/
def dcBuf : List Nat := [0x30, 0x30, 0x64, 0x63]

/-- Little-endian encoding of a 32-bit value into 4 bytes, as produced by
`memcpy(hdr+4, &jpegSize, 4)` on the little-endian target. -/
def enc32 (n : Nat) : List Nat :=
  [n % 256, n / 256 % 256, n / 65536 % 256, n / 16777216 % 256]

/-- Little-endian read of a 32-bit value at byte offset `off` of a buffer,
as performed by `memcpy(&inVal, iSDbuffer + buffOffset, 4)`.  Out-of-range
bytes read as 0. -/
def read32At (l : List Nat) (off : Nat) : Nat :=
  l.getD off 0 + 256 * l.getD (off + 1) 0 + 65536 * l.getD (off + 2) 0
    + 16777216 * l.getD (off + 3) 0

/-- The alignment filler computed by `saveFrame`:
`uint16_t filler = (4 - (fb->len & 0x00000003)) & 0x00000003;`. -/
def filler (len : Nat) : Nat := (4 - len % 4) % 4

/-- `jpegSize = fb->len + filler`: the payload length padded up to the next
4-byte boundary. -/
def paddedSize (len : Nat) : Nat := len + filler len

/-! ## The chunk stream written by `saveFrame`

`saveFrame` routes the chunk bytes through the ring buffer `iSDbuffer` to the
file; the byte sequence delivered to storage (after the reserved header) is,
per frame: marker bytes, little-endian padded length, then `jpegSize` bytes
starting at `fb->buf` (the payload followed by `filler` trailing bytes, whose
values are irrelevant to the structure and are modelled as 0). -/

def writeChunk (payload : List Nat) : List Nat :=
  dcBuf ++ enc32 (paddedSize payload.length) ++ payload
    ++ List.replicate (filler payload.length) 0

/-- The full chunk stream produced by a sequence of `saveFrame` calls. -/
def muxStream (frames : List (List Nat)) : List Nat :=
  (frames.map writeChunk).flatten

/-! ## The frame-boundary detector of `getNextFrame`

At each frame boundary (`!remainingFrame`) `getNextFrame` reads the 4-byte
marker at the current offset; if it differs from `dcVal` it stops, otherwise
it reads the 4-byte size, skips the `CHUNK_HDR` header and consumes exactly
that many payload bytes before the next boundary.  Replaying a flat byte
stream through this detector yields the sequence of sizes recorded in the
chunk headers.  The fuel argument only bounds recursion depth; each step
consumes at least `CHUNK_HDR` bytes, so any fuel at least the stream length
gives the same result.  -/

def parseSizesF : Nat → List Nat → List Nat
  | 0, _ => []
  | fuel + 1, s =>
    if 8 ≤ s.length ∧ read32At s 0 = dcVal then
      let sz := read32At s 4
      sz :: parseSizesF fuel (s.drop (CHUNK_HDR + sz))
    else []

/-- The boundary detector over a complete stream. -/
def parseSizes (s : List Nat) : List Nat := parseSizesF s.length s

theorem parseSizesF_nil (fuel : Nat) : parseSizesF fuel [] = [] := by
  cases fuel with
  | zero => rfl
  | succ n => simp [parseSizesF]

theorem parseSizesF_congr (f1 : Nat) :
    ∀ (f2 : Nat) (s : List Nat), s.length ≤ f1 → s.length ≤ f2 →
      parseSizesF f1 s = parseSizesF f2 s := by
  induction f1 with
  | zero =>
    intro f2 s h1 _
    have : s = [] := List.length_eq_zero.mp (Nat.le_zero.mp h1)
    subst this
    exact (parseSizesF_nil f2).symm
  | succ n ih =>
    intro f2 s h1 h2
    by_cases hc : 8 ≤ s.length ∧ read32At s 0 = dcVal
    · have hf2 : ∃ m, f2 = m + 1 := by
        rcases Nat.exists_eq_succ_of_ne_zero (n := f2) (by omega) with ⟨m, hm⟩
        exact ⟨m, hm⟩
      rcases hf2 with ⟨m, rfl⟩
      simp only [parseSizesF, if_pos hc]
      have hlen : (s.drop (CHUNK_HDR + read32At s 4)).length ≤ s.length - 8 := by
        simp [List.length_drop, CHUNK_HDR]
        omega
      have := ih m (s.drop (CHUNK_HDR + read32At s 4)) (by omega) (by omega)
      simp [this]
    · simp only [parseSizesF, if_neg hc]
      cases f2 with
      | zero =>
        have : s = [] := List.length_eq_zero.mp (Nat.le_zero.mp h2)
        subst this; rfl
      | succ m => simp only [parseSizesF, if_neg hc]

theorem length_writeChunk (p : List Nat) :
    (writeChunk p).length = CHUNK_HDR + paddedSize p.length := by
  simp [writeChunk, dcBuf, enc32, paddedSize, CHUNK_HDR]
  omega

theorem read32At_at0 (a0 a1 a2 a3 : Nat) (tl : List Nat) :
    read32At (a0 :: a1 :: a2 :: a3 :: tl) 0
      = a0 + 256 * a1 + 65536 * a2 + 16777216 * a3 := rfl

theorem read32At_at4 (a0 a1 a2 a3 a4 a5 a6 a7 : Nat) (tl : List Nat) :
    read32At (a0 :: a1 :: a2 :: a3 :: a4 :: a5 :: a6 :: a7 :: tl) 4
      = a4 + 256 * a5 + 65536 * a6 + 16777216 * a7 := rfl

theorem parseSizesF_chunk (p : List Nat) (rest : List Nat) (fuel : Nat)
    (hb : paddedSize p.length < 2 ^ 32) :
    parseSizesF (fuel + 1) (writeChunk p ++ rest)
      = paddedSize p.length :: parseSizesF fuel rest := by
  have hstream8 : writeChunk p ++ rest
      = 0x30 :: 0x30 :: 0x64 :: 0x63 :: (paddedSize p.length % 256)
        :: (paddedSize p.length / 256 % 256) :: (paddedSize p.length / 65536 % 256)
        :: (paddedSize p.length / 16777216 % 256)
        :: (p ++ (List.replicate (filler p.length) 0 ++ rest)) := by
    simp [writeChunk, dcBuf, enc32]
  have hlen : 8 ≤ (writeChunk p ++ rest).length := by
    rw [List.length_append, length_writeChunk]
    have h8 : CHUNK_HDR = 8 := rfl
    omega
  have hmark : read32At (writeChunk p ++ rest) 0 = dcVal := by
    rw [hstream8, read32At_at0]; decide
  have hsz : read32At (writeChunk p ++ rest) 4 = paddedSize p.length := by
    rw [hstream8, read32At_at4]
    omega
  have hdrop : (writeChunk p ++ rest).drop (CHUNK_HDR + paddedSize p.length) = rest := by
    have := List.drop_left (writeChunk p) rest
    rwa [length_writeChunk] at this
  have hcond : 8 ≤ (writeChunk p ++ rest).length ∧ read32At (writeChunk p ++ rest) 0 = dcVal :=
    ⟨hlen, hmark⟩
  simp only [parseSizesF, if_pos hcond, hsz, hdrop]

/-- An end-of-stream trailer: too short to hold a chunk header, or its first
four bytes do not read back as the frame marker. -/
def stopsParse (trailer : List Nat) : Prop :=
  trailer.length < 8 ∨ read32At trailer 0 ≠ dcVal

theorem parseSizesF_stops (trailer : List Nat) (h : stopsParse trailer) :
    ∀ fuel, parseSizesF fuel trailer = [] := by
  intro fuel
  cases fuel with
  | zero => rfl
  | succ n =>
    have : ¬ (8 ≤ trailer.length ∧ read32At trailer 0 = dcVal) := by
      rcases h with h | h
      · intro hc; omega
      · intro hc; exact h hc.2
    simp only [parseSizesF, if_neg this]

/-- Round-trip with the padded sizes: replaying the chunk stream written by
`saveFrame` through `getNextFrame`-style boundary detection recovers, per
frame, the padded size `paddedSize fb.len` stored in the chunk header. -/
theorem muxStream_roundtrip (frames : List (List Nat)) (trailer : List Nat)
    (hb : ∀ f ∈ frames, f.length + 3 < 2 ^ 32) (ht : stopsParse trailer) :
    parseSizes (muxStream frames ++ trailer)
      = frames.map (fun f => paddedSize f.length) := by
  induction frames with
  | nil =>
    simp only [muxStream, List.map_nil, List.flatten, List.nil_append]
    exact parseSizesF_stops trailer ht _
  | cons f fs ih =>
    have hf : paddedSize f.length < 2 ^ 32 := by
      have := hb f (List.mem_cons_self f fs)
      simp [paddedSize, filler]
      omega
    have hbs : ∀ g ∈ fs, g.length + 3 < 2 ^ 32 := fun g hg => hb g (List.mem_cons_of_mem f hg)
    have hstream : muxStream (f :: fs) ++ trailer
        = writeChunk f ++ (muxStream fs ++ trailer) := by
      simp [muxStream, List.flatten]
    rw [hstream]
    have hL : (writeChunk f ++ (muxStream fs ++ trailer)).length
        = CHUNK_HDR + paddedSize f.length + (muxStream fs ++ trailer).length := by
      simp [length_writeChunk]
    unfold parseSizes
    rw [hL]
    have hstep := parseSizesF_chunk f (muxStream fs ++ trailer)
      (CHUNK_HDR + paddedSize f.length + (muxStream fs ++ trailer).length - 1) hf
    have heq : CHUNK_HDR + paddedSize f.length + (muxStream fs ++ trailer).length
        = (CHUNK_HDR + paddedSize f.length + (muxStream fs ++ trailer).length - 1) + 1 := by
      simp [CHUNK_HDR]; omega
    rw [heq, hstep]
    have := parseSizesF_congr
      (CHUNK_HDR + paddedSize f.length + (muxStream fs ++ trailer).length - 1)
      ((muxStream fs ++ trailer).length) (muxStream fs ++ trailer)
      (by simp [CHUNK_HDR]; omega) (le_refl _)
    rw [this]
    exact congrArg (fun l => paddedSize f.length :: l) (ih hbs)

/-- C1, counterexample: a single frame of 5 bytes is written with a padded
chunk size of 8, so replaying the stream yields [8], not the unpadded
payload-size sequence [5] that the claim asserts. -/
theorem C1_counterexample :
    parseSizes (muxStream [[1, 2, 3, 4, 5]])
      ≠ [[1, 2, 3, 4, 5]].map List.length := by decide

/-- C1 (amended): for every sequence of frames appended via `saveFrame`,
replaying the written chunk stream (followed by any non-marker trailer such
as the AVI index) through the frame-boundary detector of `getNextFrame`
reproduces the sequence of 4-byte-aligned padded payload sizes
`fb.len + filler`, which equal the unpadded `fb.len` exactly when `fb.len`
is a multiple of 4. -/
theorem C1_roundtrip_padded (frames : List (List Nat)) (trailer : List Nat)
    (hb : ∀ f ∈ frames, f.length + 3 < 2 ^ 32) (ht : stopsParse trailer) :
    parseSizes (muxStream frames ++ trailer)
      = frames.map (fun f => paddedSize f.length) :=
  muxStream_roundtrip frames trailer hb ht

/-- Witness for C1: two concrete frames of 5 and 4 bytes followed by a
zeroed trailer replay as the padded sizes [8, 4]. -/
theorem C1_roundtrip_padded_witness :
    parseSizes (muxStream [[1, 2, 3, 4, 5], [7, 7, 7, 7]] ++ [0, 0, 0, 0, 0, 0, 0, 0])
      = [8, 4] := by
  have h := C1_roundtrip_padded [[1, 2, 3, 4, 5], [7, 7, 7, 7]]
    [0, 0, 0, 0, 0, 0, 0, 0] (by decide)
    (by right; decide)
  rw [h]; decide

/-! ## The ring-buffer cursor of `saveFrame` (C2)

`saveFrame` stages bytes in `iSDbuffer` at cursor `highPoint`.  The cursor
movement is: add `CHUNK_HDR` for the chunk header and, if the cursor reached
`RAMSIZE`, flush `RAMSIZE` bytes and collapse the cursor by `RAMSIZE`
(`highPoint -= RAMSIZE`); then, while the remaining payload fills the buffer
(`jpegRemain >= RAMSIZE - highPoint`), flush `RAMSIZE` bytes and zero the
cursor; finally add the leftover payload to the cursor.  `RAMSIZE` is a
positive constant from the missing header, kept as a parameter `R`.
`wloopF` is the payload while-loop; its guard `0 < R - hp` reflects that with
`size_t` arithmetic the C condition is false when `highPoint ≥ RAMSIZE`
(the unsigned difference wraps to a huge value).  The fuel `jr + 1` is
sufficient because every iteration consumes at least one payload byte.
It returns (final cursor, leftover payload, number of flushes). -/

def wloopF : Nat → Nat → Nat → Nat → Nat × Nat × Nat
  | 0, _, hp, jr => (hp, jr, 0)
  | fuel + 1, R, hp, jr =>
    if 0 < R - hp ∧ R - hp ≤ jr then
      let r := wloopF fuel R 0 (jr - (R - hp))
      (r.1, r.2.1, r.2.2 + 1)
    else (hp, jr, 0)

/-- Muxer session state: write cursor `highPoint` and the sizes of the
storage writes (flushes) issued so far, in order. -/
structure MuxS where
  hp : Nat
  flushes : List Nat
deriving DecidableEq

/-- One `saveFrame` call on the cursor state.  Returns the new state and the
trace of successive `highPoint` values taken inside the call (after the
header add, after the collapse if any, after each in-loop reset to 0, and
the final value). -/
def saveFrameMux (R len : Nat) (s : MuxS) : MuxS × List Nat :=
  let j := paddedSize len
  let hp1 := s.hp + CHUNK_HDR
  let hdr : Nat × List Nat × List Nat :=
    if R ≤ hp1 then (hp1 - R, [R], [hp1, hp1 - R]) else (hp1, [], [hp1])
  let w := wloopF (j + 1) R hdr.1 j
  let hpFinal := w.1 + w.2.1
  (⟨hpFinal, s.flushes ++ hdr.2.1 ++ List.replicate w.2.2 R⟩,
   hdr.2.2 ++ List.replicate w.2.2 0 ++ [hpFinal])

def recordStep (R : Nat) (acc : MuxS × List Nat) (len : Nat) : MuxS × List Nat :=
  let r := saveFrameMux R len acc.1
  (r.1, acc.2 ++ r.2)

/-- A recording session: `openAvi` sets `highPoint = AVI_HEADER_LEN`
(parameter `hp0` here, below `R`), then one `saveFrameMux` per frame.
Returns the final state and the concatenated cursor trace. -/
def recordRun (R hp0 : Nat) (lens : List Nat) : MuxS × List Nat :=
  lens.foldl (recordStep R) (⟨hp0, []⟩, [hp0])

theorem wloopF_lt (R : Nat) (hR : 0 < R) :
    ∀ (fuel hp jr : Nat), hp < R → jr < fuel →
      (wloopF fuel R hp jr).1 + (wloopF fuel R hp jr).2.1 < R := by
  intro fuel
  induction fuel with
  | zero => intro hp jr _ h; omega
  | succ n ih =>
    intro hp jr hhp hjr
    by_cases hc : 0 < R - hp ∧ R - hp ≤ jr
    · simp only [wloopF, if_pos hc]
      exact ih 0 (jr - (R - hp)) hR (by omega)
    · simp only [wloopF, if_neg hc]
      omega

theorem saveFrameMux_hp (R len : Nat) (s : MuxS) (hR : 8 ≤ R) (hhp : s.hp < R) :
    (saveFrameMux R len s).1.hp < R := by
  have h8 : CHUNK_HDR = 8 := rfl
  unfold saveFrameMux
  by_cases hc : R ≤ s.hp + CHUNK_HDR
  · simp only [if_pos hc]
    exact wloopF_lt R (by omega) (paddedSize len + 1) (s.hp + CHUNK_HDR - R)
      (paddedSize len) (by omega) (by omega)
  · simp only [if_neg hc]
    exact wloopF_lt R (by omega) (paddedSize len + 1) (s.hp + CHUNK_HDR)
      (paddedSize len) (by omega) (by omega)

theorem saveFrameMux_trace (R len : Nat) (s : MuxS) (hR : 8 ≤ R) (hhp : s.hp < R) :
    ∀ v ∈ (saveFrameMux R len s).2, v < 2 * R := by
  have h8 : CHUNK_HDR = 8 := rfl
  have hfin := saveFrameMux_hp R len s hR hhp
  intro v hv
  unfold saveFrameMux at hv hfin
  by_cases hc : R ≤ s.hp + CHUNK_HDR
  · simp only [if_pos hc] at hv hfin
    simp only [List.mem_append, List.mem_cons, List.mem_singleton,
      List.eq_of_mem_replicate] at hv
    rcases hv with ((h | h) | h) | h
    · omega
    · simp at h; omega
    · have := List.eq_of_mem_replicate h; omega
    · simp at h; omega
  · simp only [if_neg hc] at hv hfin
    simp only [List.mem_append, List.mem_cons, List.mem_singleton] at hv
    rcases hv with (h | h) | h
    · simp at h; omega
    · have := List.eq_of_mem_replicate h; omega
    · simp at h; omega

theorem saveFrameMux_flushes (R len : Nat) (s : MuxS) :
    ∀ b ∈ (saveFrameMux R len s).1.flushes, b ∈ s.flushes ∨ b = R := by
  intro b hb
  unfold saveFrameMux at hb
  by_cases hc : R ≤ s.hp + CHUNK_HDR
  · simp only [if_pos hc] at hb
    simp only [List.mem_append, List.mem_singleton] at hb
    rcases hb with (h | h) | h
    · exact Or.inl h
    · exact Or.inr h
    · exact Or.inr (List.eq_of_mem_replicate h)
  · simp only [if_neg hc] at hb
    simp only [List.mem_append, List.not_mem_nil] at hb
    rcases hb with (h | h) | h
    · exact Or.inl h
    · exact h.elim
    · exact Or.inr (List.eq_of_mem_replicate h)

theorem recordRun_aux (R : Nat) (hR : 8 ≤ R) (lens : List Nat) :
    ∀ (acc : MuxS × List Nat), acc.1.hp < R → (∀ v ∈ acc.2, v < 2 * R) →
      (∀ b ∈ acc.1.flushes, b = R) →
      (lens.foldl (recordStep R) acc).1.hp < R
      ∧ (∀ v ∈ (lens.foldl (recordStep R) acc).2, v < 2 * R)
      ∧ (∀ b ∈ (lens.foldl (recordStep R) acc).1.flushes, b = R) := by
  induction lens with
  | nil => intro acc h1 h2 h3; exact ⟨h1, h2, h3⟩
  | cons len rest ih =>
    intro acc h1 h2 h3
    simp only [List.foldl_cons]
    apply ih
    · exact saveFrameMux_hp R len acc.1 hR h1
    · intro v hv
      simp only [recordStep, List.mem_append] at hv
      rcases hv with h | h
      · exact h2 v h
      · exact saveFrameMux_trace R len acc.1 hR h1 v h
    · intro b hb
      simp only [recordStep] at hb
      rcases saveFrameMux_flushes R len acc.1 b hb with h | h
      · exact h3 b h
      · exact h

/-- C2: throughout a recording session started with the cursor below
`RAMSIZE` (as `openAvi` does with `highPoint = AVI_HEADER_LEN`), every
cursor value in the session trace is below `2 × RAMSIZE`, the cursor is
below `RAMSIZE` again after every `saveFrame` call, every storage flush
performed by `saveFrame` writes exactly `RAMSIZE` bytes, and whenever the
header write pushes the cursor to `RAMSIZE` or beyond it is immediately
collapsed by `RAMSIZE` back into `[0, RAMSIZE)` (0 ≤ highPoint holds over ℕ). -/
theorem C2_ring_invariant (R hp0 : Nat) (lens : List Nat)
    (hR : 8 ≤ R) (h0 : hp0 < R) :
    (recordRun R hp0 lens).1.hp < R
    ∧ (∀ v ∈ (recordRun R hp0 lens).2, v < 2 * R)
    ∧ (∀ b ∈ (recordRun R hp0 lens).1.flushes, b = R)
    ∧ (∀ len s, (s : MuxS).hp < R → R ≤ s.hp + CHUNK_HDR →
        (saveFrameMux R len s).2.take 2 = [s.hp + CHUNK_HDR, s.hp + CHUNK_HDR - R]
        ∧ s.hp + CHUNK_HDR - R < R) := by
  have hrun := recordRun_aux R hR lens (⟨hp0, []⟩, [hp0]) h0
    (by intro v hv; simp at hv; omega)
    (by intro b hb; simp at hb)
  refine ⟨hrun.1, hrun.2.1, hrun.2.2, ?_⟩
  intro len s hs hcol
  have h8 : CHUNK_HDR = 8 := rfl
  constructor
  · unfold saveFrameMux
    simp only [if_pos hcol]
    rfl
  · omega

/-- Witness for C2 at `RAMSIZE = 16`, initial cursor 10, three frames of
5, 40 and 3 payload bytes (the middle one spans several flushes). -/
theorem C2_ring_invariant_witness :
    (recordRun 16 10 [5, 40, 3]).1.hp < 16
    ∧ (∀ v ∈ (recordRun 16 10 [5, 40, 3]).2, v < 2 * 16)
    ∧ (∀ b ∈ (recordRun 16 10 [5, 40, 3]).1.flushes, b = 16)
    ∧ (∀ len s, (s : MuxS).hp < 16 → 16 ≤ s.hp + CHUNK_HDR →
        (saveFrameMux 16 len s).2.take 2 = [s.hp + CHUNK_HDR, s.hp + CHUNK_HDR - 16]
        ∧ s.hp + CHUNK_HDR - 16 < 16) :=
  C2_ring_invariant 16 10 [5, 40, 3] (by decide) (by decide)

/-! ## The record state machine of `processFrame` (C3, C5, C6, C7)

`processFrame` runs two consecutive switches on the global `recordState`:
the first handles the motion-check cadence, the maximum-duration cap
(condition `currentTime - recordingStartTime >= minSeconds * 1000 * 10`)
and the 5-second cooldown expiry; the second starts a recording from IDLE
on any trigger, muxes a frame while RECORDING (incrementing the `uint16_t`
frame counter), closes on trigger loss after the minimum duration, and
closes on the `maxFrames` ceiling (clearing `forceRecord` there only).
`uint32_t` time subtraction is modelled by `usub`.  The motion detector
result is an oracle input (`motionSignal`); it only feeds `processFrame` a
boolean.  An invalid frame (`fb` null/empty/oversized) is `fbValid = false`
and returns without touching the state machine. -/

def usub (a b : Nat) : Nat := (a % 2 ^ 32 + (2 ^ 32 - b % 2 ^ 32)) % 2 ^ 32

inductive RecState where
  | IDLE
  | RECORDING
  | COOLDOWN
deriving DecidableEq

structure PFConfig where
  minSeconds : Nat
  moveStopSecs : Nat
  maxFrames : Nat
  useMotion : Bool
deriving DecidableEq

structure PFState where
  recordState : RecState
  recordingStartTime : Nat
  lastMotionCheckTime : Nat
  frameCnt : Nat
  forceRecord : Bool
  stopPlayback : Bool
deriving DecidableEq

structure PFInput where
  fbValid : Bool
  currentTime : Nat
  motionSignal : Bool
  pirDetected : Bool
deriving DecidableEq

structure StepOut where
  state : PFState
  visited : List RecState
  closes : Nat
deriving DecidableEq

/-- The first switch of `processFrame` (lines 489-518): returns the
`checkForMotion` flag, the updated `lastMotionCheckTime`, the state after
this switch, the (possibly reused) `recordingStartTime`, and how many
`closeAvi` calls it made. -/
def firstSwitch (cfg : PFConfig) (s : PFState) (ct : Nat) :
    Bool × Nat × RecState × Nat × Nat :=
  match s.recordState with
  | .IDLE => (true, s.lastMotionCheckTime, .IDLE, s.recordingStartTime, 0)
  | .RECORDING =>
    let cfm : Bool := decide (cfg.moveStopSecs * 1000 ≤ usub ct s.lastMotionCheckTime)
    let lm := if cfm then ct else s.lastMotionCheckTime
    if cfg.minSeconds * 1000 * 10 ≤ usub ct s.recordingStartTime then
      (cfm, lm, .COOLDOWN, ct, 1)
    else
      (cfm, lm, .RECORDING, s.recordingStartTime, 0)
  | .COOLDOWN =>
    if 5000 ≤ usub ct s.recordingStartTime then
      (false, s.lastMotionCheckTime, .IDLE, s.recordingStartTime, 0)
    else
      (false, s.lastMotionCheckTime, .COOLDOWN, s.recordingStartTime, 0)

/-- One `processFrame` call.  `visited` is the sequence of values taken by
`recordState` during the call (initial value plus each switch's result);
`closes` counts `closeAvi` calls. -/
def processFrameStep (cfg : PFConfig) (s : PFState) (i : PFInput) : StepOut :=
  if i.fbValid = false then ⟨s, [s.recordState], 0⟩
  else
    let ct := i.currentTime
    let f := firstSwitch cfg s ct
    let cfm := f.1
    let lm1 := f.2.1
    let st1 := f.2.2.1
    let rst1 := f.2.2.2.1
    let closes1 := f.2.2.2.2
    let motionDetected := cfm && cfg.useMotion && i.motionSignal
    let lm2 := if cfm && cfg.useMotion then ct else lm1
    let shouldRecord := motionDetected || s.forceRecord || i.pirDetected
    match st1 with
    | .IDLE =>
      if shouldRecord then
        ⟨⟨.RECORDING, ct, ct, 0, s.forceRecord, true⟩,
         [s.recordState, .IDLE, .RECORDING], closes1⟩
      else
        ⟨⟨.IDLE, rst1, lm2, s.frameCnt, s.forceRecord, s.stopPlayback⟩,
         [s.recordState, .IDLE], closes1⟩
    | .RECORDING =>
      let fc := (s.frameCnt + 1) % 65536
      let c2 : RecState × Nat × Nat :=
        if (!shouldRecord) && decide (cfg.minSeconds * 1000 ≤ usub ct rst1) then
          (.COOLDOWN, ct, closes1 + 1)
        else (.RECORDING, rst1, closes1)
      if cfg.maxFrames ≤ fc then
        ⟨⟨.COOLDOWN, ct, lm2, fc, false, s.stopPlayback⟩,
         [s.recordState, .RECORDING, c2.1, .COOLDOWN], c2.2.2 + 1⟩
      else
        ⟨⟨c2.1, c2.2.1, lm2, fc, s.forceRecord, s.stopPlayback⟩,
         [s.recordState, .RECORDING, c2.1], c2.2.2⟩
    | .COOLDOWN =>
      ⟨⟨.COOLDOWN, rst1, lm2, s.frameCnt, s.forceRecord, s.stopPlayback⟩,
       [s.recordState, .COOLDOWN], closes1⟩

/-- The transitions the specification permits: self-loops plus
IDLE→RECORDING, RECORDING→COOLDOWN and COOLDOWN→IDLE. -/
def allowed : RecState → RecState → Bool
  | .IDLE, .IDLE => true
  | .IDLE, .RECORDING => true
  | .RECORDING, .RECORDING => true
  | .RECORDING, .COOLDOWN => true
  | .COOLDOWN, .COOLDOWN => true
  | .COOLDOWN, .IDLE => true
  | _, _ => false

/-- A list of states is a legal path when every adjacent pair is `allowed`. -/
def chainAllowed : List RecState → Bool
  | [] => true
  | [_] => true
  | a :: b :: t => allowed a b && chainAllowed (b :: t)

/-- A run of `processFrame` over an input sequence; returns the final state
and the concatenated path of `recordState` values. -/
def runSM (cfg : PFConfig) (s : PFState) : List PFInput → PFState × List RecState
  | [] => (s, [s.recordState])
  | i :: rest =>
    let o := processFrameStep cfg s i
    let r := runSM cfg o.state rest
    (r.1, o.visited ++ r.2.tail)

theorem step_visited_head (cfg : PFConfig) (s : PFState) (i : PFInput) :
    (processFrameStep cfg s i).visited.head? = some s.recordState := by
  rcases s with ⟨rs, rst, lm, fc, fr, sp⟩
  rcases i with ⟨fv, ct, ms, pir⟩
  cases fv with
  | false => rfl
  | true =>
    have hfv : ¬((true : Bool) = false) := by decide
    cases rs with
    | IDLE =>
      simp only [processFrameStep, firstSwitch, if_neg hfv]
      repeat' split
      all_goals rfl
    | RECORDING =>
      by_cases hD : cfg.minSeconds * 1000 * 10 ≤ usub ct rst
      · simp only [processFrameStep, firstSwitch, if_neg hfv, if_pos hD]
        repeat' split
        all_goals rfl
      · simp only [processFrameStep, firstSwitch, if_neg hfv, if_neg hD]
        repeat' split
        all_goals rfl
    | COOLDOWN =>
      by_cases hC : 5000 ≤ usub ct rst
      · simp only [processFrameStep, firstSwitch, if_neg hfv, if_pos hC]
        repeat' split
        all_goals rfl
      · simp only [processFrameStep, firstSwitch, if_neg hfv, if_neg hC]
        repeat' split
        all_goals rfl

theorem step_visited_last (cfg : PFConfig) (s : PFState) (i : PFInput) :
    (processFrameStep cfg s i).visited.getLast?
      = some (processFrameStep cfg s i).state.recordState := by
  rcases s with ⟨rs, rst, lm, fc, fr, sp⟩
  rcases i with ⟨fv, ct, ms, pir⟩
  cases fv with
  | false => rfl
  | true =>
    have hfv : ¬((true : Bool) = false) := by decide
    cases rs with
    | IDLE =>
      simp only [processFrameStep, firstSwitch, if_neg hfv]
      repeat' split
      all_goals rfl
    | RECORDING =>
      by_cases hD : cfg.minSeconds * 1000 * 10 ≤ usub ct rst
      · simp only [processFrameStep, firstSwitch, if_neg hfv, if_pos hD]
        repeat' split
        all_goals rfl
      · simp only [processFrameStep, firstSwitch, if_neg hfv, if_neg hD]
        repeat' split
        all_goals rfl
    | COOLDOWN =>
      by_cases hC : 5000 ≤ usub ct rst
      · simp only [processFrameStep, firstSwitch, if_neg hfv, if_pos hC]
        repeat' split
        all_goals rfl
      · simp only [processFrameStep, firstSwitch, if_neg hfv, if_neg hC]
        repeat' split
        all_goals rfl

theorem step_chain (cfg : PFConfig) (s : PFState) (i : PFInput) :
    chainAllowed (processFrameStep cfg s i).visited = true := by
  rcases s with ⟨rs, rst, lm, fc, fr, sp⟩
  rcases i with ⟨fv, ct, ms, pir⟩
  cases fv with
  | false => rfl
  | true =>
    have hfv : ¬((true : Bool) = false) := by decide
    cases rs with
    | IDLE =>
      simp only [processFrameStep, firstSwitch, if_neg hfv]
      repeat' split
      all_goals rfl
    | RECORDING =>
      by_cases hD : cfg.minSeconds * 1000 * 10 ≤ usub ct rst
      · simp only [processFrameStep, firstSwitch, if_neg hfv, if_pos hD]
        repeat' split
        all_goals rfl
      · simp only [processFrameStep, firstSwitch, if_neg hfv, if_neg hD]
        repeat' split
        all_goals rfl
    | COOLDOWN =>
      by_cases hC : 5000 ≤ usub ct rst
      · simp only [processFrameStep, firstSwitch, if_neg hfv, if_pos hC]
        repeat' split
        all_goals rfl
      · simp only [processFrameStep, firstSwitch, if_neg hfv, if_neg hC]
        repeat' split
        all_goals rfl

theorem chainAllowed_append (xs : List RecState) :
    ∀ (ys : List RecState) (x : RecState), chainAllowed xs = true →
      xs.getLast? = some x → chainAllowed (x :: ys) = true →
      chainAllowed (xs ++ ys) = true := by
  induction xs with
  | nil => intro ys x _ hlast _; cases hlast
  | cons a t ih =>
    intro ys x hchain hlast hys
    cases t with
    | nil =>
      simp only [List.getLast?_singleton, Option.some.injEq] at hlast
      subst hlast
      simpa using hys
    | cons b t2 =>
      simp only [chainAllowed, Bool.and_eq_true] at hchain
      have hlast2 : (b :: t2).getLast? = some x := by
        simpa [List.getLast?_cons_cons] using hlast
      have := ih ys x hchain.2 hlast2 hys
      simp only [List.cons_append, chainAllowed]
      simp only [List.cons_append] at this
      simp [hchain.1, this]

theorem runSM_head (cfg : PFConfig) (inps : List PFInput) :
    ∀ s : PFState, (runSM cfg s inps).2.head? = some s.recordState := by
  cases inps with
  | nil => intro s; rfl
  | cons i rest =>
    intro s
    simp only [runSM]
    rw [List.head?_append_of_ne_nil]
    · exact step_visited_head cfg s i
    · intro hnil
      have := step_visited_head cfg s i
      rw [hnil] at this
      cases this

theorem runSM_chain (cfg : PFConfig) (inps : List PFInput) :
    ∀ s : PFState, chainAllowed (runSM cfg s inps).2 = true := by
  induction inps with
  | nil => intro s; rfl
  | cons i rest ih =>
    intro s
    simp only [runSM]
    apply chainAllowed_append (processFrameStep cfg s i).visited
      ((runSM cfg (processFrameStep cfg s i).state rest).2.tail)
      (processFrameStep cfg s i).state.recordState
      (step_chain cfg s i) (step_visited_last cfg s i)
    have hh := runSM_head cfg rest (processFrameStep cfg s i).state
    have hch := ih (processFrameStep cfg s i).state
    rcases hr : (runSM cfg (processFrameStep cfg s i).state rest).2 with _ | ⟨h2, t2⟩
    · rw [hr] at hh; cases hh
    · rw [hr] at hh hch
      simp only [List.head?_cons, Option.some.injEq] at hh
      subst hh
      simpa using hch

/-- C3: over every sequence of frames and trigger inputs fed to
`processFrame`, from any starting state, the path of `recordState` values
only ever takes the transitions IDLE→RECORDING, RECORDING→COOLDOWN and
COOLDOWN→IDLE (besides staying put): RECORDING is entered only from IDLE
and never transitions directly to IDLE. -/
theorem C3_transition_discipline (cfg : PFConfig) (s0 : PFState)
    (inps : List PFInput) :
    chainAllowed (runSM cfg s0 inps).2 = true :=
  runSM_chain cfg inps s0

/-- C5: while RECORDING, reaching the maximum-duration cap
(`currentTime - recordingStartTime >= minSeconds * 1000 * 10`, the code's
configured ceiling) or the frame-count ceiling (`frameCnt >= maxFrames`
after the `saveFrame` increment) forces at least one `closeAvi` call and
leaves the state machine in COOLDOWN, for every trigger input (motion, PIR
and `forceRecord` are unconstrained, so an active trigger does not prevent
the close). -/
theorem C5_caps_force_close (cfg : PFConfig) (s : PFState) (i : PFInput)
    (hv : i.fbValid = true) (hrec : s.recordState = .RECORDING)
    (hcap : cfg.minSeconds * 1000 * 10 ≤ usub i.currentTime s.recordingStartTime
      ∨ cfg.maxFrames ≤ (s.frameCnt + 1) % 65536) :
    (processFrameStep cfg s i).state.recordState = .COOLDOWN
    ∧ 1 ≤ (processFrameStep cfg s i).closes := by
  rcases s with ⟨rs, rst, lm, fc, fr, sp⟩
  rcases i with ⟨fv, ct, ms, pir⟩
  simp only at hv hrec hcap
  subst hv
  subst hrec
  have hfv : ¬((true : Bool) = false) := by decide
  by_cases hD : cfg.minSeconds * 1000 * 10 ≤ usub ct rst
  · simp only [processFrameStep, firstSwitch, if_neg hfv, if_pos hD]
    constructor <;> first | trivial | omega
  · have hcap2 : cfg.maxFrames ≤ (fc + 1) % 65536 := by
      rcases hcap with h | h
      · exact absurd h hD
      · exact h
    simp only [processFrameStep, firstSwitch, if_neg hfv, if_neg hD, if_pos hcap2]
    constructor <;> first | trivial | omega

/-- Witness for C5: the frame-count ceiling is reached while every trigger
(motion, PIR, manual) is still active; the state still moves to COOLDOWN
with one close. -/
theorem C5_caps_force_close_witness :
    (processFrameStep ⟨30, 5, 20000, true⟩ ⟨.RECORDING, 0, 0, 19999, true, true⟩
        ⟨true, 1000, true, true⟩).state.recordState = .COOLDOWN
    ∧ 1 ≤ (processFrameStep ⟨30, 5, 20000, true⟩ ⟨.RECORDING, 0, 0, 19999, true, true⟩
        ⟨true, 1000, true, true⟩).closes :=
  C5_caps_force_close ⟨30, 5, 20000, true⟩ ⟨.RECORDING, 0, 0, 19999, true, true⟩
    ⟨true, 1000, true, true⟩ rfl rfl (Or.inr (by decide))

/-- C6, counterexample: a close forced by the maximum-duration cap
(`minSeconds * 1000 * 10` reached, frame ceiling not reached) transitions to
COOLDOWN with one `closeAvi` call but leaves `forceRecord` set: the
duration-cap branch of `processFrame` does not clear the manual-record
flag (only the frame-count branch does). -/
theorem C6_counterexample :
    30 * 1000 * 10 ≤ usub 300000 0
    ∧ (processFrameStep ⟨30, 5, 20000, true⟩ ⟨.RECORDING, 0, 0, 100, true, true⟩
        ⟨true, 300000, false, false⟩).closes = 1
    ∧ (processFrameStep ⟨30, 5, 20000, true⟩ ⟨.RECORDING, 0, 0, 100, true, true⟩
        ⟨true, 300000, false, false⟩).state.recordState = .COOLDOWN
    ∧ (processFrameStep ⟨30, 5, 20000, true⟩ ⟨.RECORDING, 0, 0, 100, true, true⟩
        ⟨true, 300000, false, false⟩).state.forceRecord = true := by decide

/-- C6 (amended): `forceRecord` is cleared exactly on the frame-count-ceiling
close; a close forced by the maximum-duration cap leaves `forceRecord`
unchanged. -/
theorem C6_caps_forceRecord (cfg : PFConfig) (s : PFState) (i : PFInput) :
    (i.fbValid = true → s.recordState = .RECORDING →
      usub i.currentTime s.recordingStartTime < cfg.minSeconds * 1000 * 10 →
      cfg.maxFrames ≤ (s.frameCnt + 1) % 65536 →
      (processFrameStep cfg s i).state.forceRecord = false)
    ∧ (i.fbValid = true → s.recordState = .RECORDING →
      cfg.minSeconds * 1000 * 10 ≤ usub i.currentTime s.recordingStartTime →
      (processFrameStep cfg s i).state.forceRecord = s.forceRecord) := by
  rcases s with ⟨rs, rst, lm, fc, fr, sp⟩
  rcases i with ⟨fv, ct, ms, pir⟩
  have hfv : ¬((true : Bool) = false) := by decide
  constructor
  · intro hv hrec hdurlt hcap
    simp only at hv hrec hdurlt hcap
    subst hv; subst hrec
    simp only [processFrameStep, firstSwitch, if_neg hfv,
      if_neg (show ¬(cfg.minSeconds * 1000 * 10 ≤ usub ct rst) by omega),
      if_pos hcap]
  · intro hv hrec hdur
    simp only at hv hrec hdur
    subst hv; subst hrec
    simp only [processFrameStep, firstSwitch, if_neg hfv, if_pos hdur]

/-- Witness for C6 (amended): a frame-ceiling close clears `forceRecord`; a
duration-cap close with `forceRecord` set leaves it set. -/
theorem C6_caps_forceRecord_witness :
    (processFrameStep ⟨30, 5, 20000, true⟩ ⟨.RECORDING, 0, 0, 19999, true, true⟩
        ⟨true, 1000, true, true⟩).state.forceRecord = false
    ∧ (processFrameStep ⟨30, 5, 20000, true⟩ ⟨.RECORDING, 0, 0, 100, true, true⟩
        ⟨true, 300000, false, false⟩).state.forceRecord = true :=
  ⟨(C6_caps_forceRecord ⟨30, 5, 20000, true⟩ ⟨.RECORDING, 0, 0, 19999, true, true⟩
      ⟨true, 1000, true, true⟩).1 rfl rfl (by decide) (by decide),
   (C6_caps_forceRecord ⟨30, 5, 20000, true⟩ ⟨.RECORDING, 0, 0, 100, true, true⟩
      ⟨true, 300000, false, false⟩).2 rfl rfl (by decide)⟩

/-! ## Playback open and the recording/playback mutual exclusion (C7)

`openSDfile` refuses when `stopPlayback` is set; starting a recording
(IDLE→RECORDING) sets `stopPlayback = true` after terminating any running
playback, and no `processFrame` path clears it while RECORDING, so the flag
is set whenever a recording is in progress. -/

structure PlaybackCtl where
  isPlaying : Bool
  doPlayback : Bool
  FPS : Nat
  openFile : Option String
deriving DecidableEq

/-- The clamp in `playbackFPS`: `if (recFPS < 1) recFPS = 1;`. -/
def clampFPS (recFPS : Nat) : Nat := if recFPS < 1 then 1 else recFPS

/-- `openSDfile`: when `stopPlayback` is set it only logs a warning and
returns — no file is opened, `isPlaying`/`doPlayback` stay untouched and the
frame rate is unchanged.  Otherwise it opens the file, sets the playback
frame rate from the filename metadata (`parsedFPS`, clamped) and marks
playback active. -/
def openSDfileModel (stopPlayback : Bool) (parsedFPS : Nat) (pb : PlaybackCtl)
    (streamFile : String) : PlaybackCtl :=
  if stopPlayback then pb
  else ⟨true, true, clampFPS parsedFPS, some streamFile⟩

theorem step_stopPlayback_inv (cfg : PFConfig) (s : PFState) (i : PFInput)
    (h : s.recordState = .RECORDING → s.stopPlayback = true) :
    (processFrameStep cfg s i).state.recordState = .RECORDING →
    (processFrameStep cfg s i).state.stopPlayback = true := by
  rcases s with ⟨rs, rst, lm, fc, fr, sp⟩
  rcases i with ⟨fv, ct, ms, pir⟩
  cases fv with
  | false => exact h
  | true =>
    have hfv : ¬((true : Bool) = false) := by decide
    cases rs with
    | IDLE =>
      simp only [processFrameStep, firstSwitch, if_neg hfv]
      repeat' split
      all_goals intro hx
      all_goals first | rfl | exact h rfl | contradiction
    | RECORDING =>
      by_cases hD : cfg.minSeconds * 1000 * 10 ≤ usub ct rst
      · simp only [processFrameStep, firstSwitch, if_neg hfv, if_pos hD]
        repeat' split
        all_goals intro hx
        all_goals first | rfl | exact h rfl | contradiction
      · simp only [processFrameStep, firstSwitch, if_neg hfv, if_neg hD]
        repeat' split
        all_goals intro hx
        all_goals first | rfl | exact h rfl | contradiction
    | COOLDOWN =>
      by_cases hC : 5000 ≤ usub ct rst
      · simp only [processFrameStep, firstSwitch, if_neg hfv, if_pos hC]
        repeat' split
        all_goals intro hx
        all_goals first | rfl | exact h rfl | contradiction
      · simp only [processFrameStep, firstSwitch, if_neg hfv, if_neg hC]
        repeat' split
        all_goals intro hx
        all_goals first | rfl | exact h rfl | contradiction

theorem runSM_stopPlayback_inv (cfg : PFConfig) (inps : List PFInput) :
    ∀ s : PFState, (s.recordState = .RECORDING → s.stopPlayback = true) →
      (runSM cfg s inps).1.recordState = .RECORDING →
      (runSM cfg s inps).1.stopPlayback = true := by
  induction inps with
  | nil => intro s h; exact h
  | cons i rest ih =>
    intro s h
    simp only [runSM]
    exact ih (processFrameStep cfg s i).state (step_stopPlayback_inv cfg s i h)

/-- C7: along any run of `processFrame` from a state satisfying the
recording/`stopPlayback` linkage (as at boot, where both are clear), while
the recording is in progress `openSDfile` refuses playback: it returns the
playback-control state unchanged — no file opened, `isPlaying` and
`doPlayback` untouched, frame rate untouched. -/
theorem C7_playback_refused (cfg : PFConfig) (s0 : PFState) (inps : List PFInput)
    (hinv : s0.recordState = .RECORDING → s0.stopPlayback = true)
    (hrec : (runSM cfg s0 inps).1.recordState = .RECORDING)
    (parsedFPS : Nat) (pb : PlaybackCtl) (f : String) :
    openSDfileModel (runSM cfg s0 inps).1.stopPlayback parsedFPS pb f = pb := by
  have hsp := runSM_stopPlayback_inv cfg inps s0 hinv hrec
  simp [openSDfileModel, hsp]

/-- Witness for C7: from boot (IDLE, flag clear), one motion-triggered frame
starts a recording; a playback-open attempt then leaves the playback control
state untouched. -/
theorem C7_playback_refused_witness :
    openSDfileModel (runSM ⟨30, 5, 20000, true⟩ ⟨.IDLE, 0, 0, 0, false, false⟩
        [⟨true, 1000, true, false⟩]).1.stopPlayback 25 ⟨false, false, 10, none⟩ "f"
      = ⟨false, false, 10, none⟩ :=
  C7_playback_refused ⟨30, 5, 20000, true⟩ ⟨.IDLE, 0, 0, 0, false, false⟩
    [⟨true, 1000, true, false⟩] (by decide) (by decide) 25 ⟨false, false, 10, none⟩ "f"

/-! ## The emission step of `getNextFrame` (C8)

The returned record is the C `mjpegStruct` (buffLen, buffOffset, jpegSize).
`getNextFrameEmit` embeds one call of the emission logic over the currently
loaded buffer half `buf` of valid length `buffLen` (the SD refill performed
by the read-ahead task between calls is concurrency and stays outside the
function: it only changes `buf`/`buffLen`).  At a frame boundary
(`remainingFrame == 0`) the 4-byte value at `buffOffset` is compared with
the `00dc` marker `dcVal`: on mismatch the call returns immediately with
`jpegSize = 0`, `buffLen = buffOffset` (only the already-buffered remainder
of the final jpeg, nothing beyond the boundary) and sets
`stopPlayback = completedPlayback = true`, so the next call tears the
session down.  `R` is `RAMSIZE`. -/

structure mjpegStruct where
  buffLen : Nat
  buffOffset : Nat
  jpegSize : Nat
deriving DecidableEq

structure PBState where
  stopPlayback : Bool
  completedPlayback : Bool
  remainingBuff : Bool
  remainingFrame : Nat
  buffOffset : Nat
  buffLen : Nat
  frameCnt : Nat
deriving DecidableEq

/-- The common tail of the emission branch (lines 753-759): clip the slice
to the residual frame and residual buffer (`buffOffset > RAMSIZE` is the
wrap special case sending 0), advance the cursor, consume the frame, and
drop `remainingBuff` when the buffer half is exhausted. -/
def emitSlice (R : Nat) (s : PBState) (jsz : Nat) : mjpegStruct × PBState :=
  let bl := if R < s.buffOffset then 0
            else if s.buffLen - s.buffOffset < s.remainingFrame
              then s.buffLen - s.buffOffset else s.remainingFrame
  (⟨bl, s.buffOffset, jsz⟩,
   { s with remainingFrame := s.remainingFrame - bl,
            buffOffset := s.buffOffset + bl,
            remainingBuff :=
              if s.buffLen ≤ s.buffOffset + bl then false else s.remainingBuff })

/-- One emission call of `getNextFrame` (lines 703-789, buffer already
loaded).  The teardown branch (entered with `stopPlayback` set) closes the
file, restores the pre-playback frame rate and clears the flags; here only
the `PBState` fields it writes are kept. -/
def getNextFrameEmit (R : Nat) (buf : List Nat) (s : PBState) : mjpegStruct × PBState :=
  if s.stopPlayback then
    (⟨0, 0, 0⟩, { s with stopPlayback := false })
  else
    if s.remainingFrame = 0 then
      if read32At buf s.buffOffset ≠ dcVal then
        (⟨s.buffOffset, 0, 0⟩,
         { s with stopPlayback := true, completedPlayback := true })
      else
        let jpegSize := read32At buf (s.buffOffset + 4)
        emitSlice R
          { s with remainingFrame := jpegSize,
                   buffOffset := s.buffOffset + CHUNK_HDR,
                   frameCnt := s.frameCnt + 1 } jpegSize
    else
      emitSlice R s 0

/-- C8: at a frame boundary, when the 4-byte chunk-header value at the
current offset is not the `00dc` frame marker, `getNextFrame` returns a
zero-length frame result (`jpegSize = 0`, payload limited to the bytes
already buffered before the boundary: `buffLen = buffOffset` from the
buffer start), marks the session for teardown
(`stopPlayback = completedPlayback = true`), and does not advance the read
cursor or consume any byte beyond the stored frame data. -/
theorem C8_marker_mismatch (R : Nat) (buf : List Nat) (s : PBState)
    (hs : s.stopPlayback = false) (hb : s.remainingFrame = 0)
    (hm : read32At buf s.buffOffset ≠ dcVal) :
    getNextFrameEmit R buf s
      = (⟨s.buffOffset, 0, 0⟩,
         { s with stopPlayback := true, completedPlayback := true }) := by
  simp [getNextFrameEmit, hs, hb, hm]

/-- Witness for C8: a zeroed chunk header (the zero/garbage end pattern) at
offset 2 of the buffer produces the terminal zero-length result and flags
the session for teardown, leaving the cursor at 2. -/
theorem C8_marker_mismatch_witness :
    getNextFrameEmit 8192 [0, 0, 0, 0] ⟨false, false, true, 0, 2, 10, 1⟩
      = (⟨2, 0, 0⟩, ⟨true, true, true, 0, 2, 10, 1⟩) :=
  C8_marker_mismatch 8192 [0, 0, 0, 0] ⟨false, false, true, 0, 2, 10, 1⟩
    rfl rfl (by decide)

/-! ## Frame clock control (C9, C10)

`controlFrameTimer(true)` computes the timer alarm interval as
`OneMHz / FPS` microseconds from the current global `FPS`.  `ClockState`
collects the globals it involves; `timerRestarts` counts restarts. -/

def OneMHz : Nat := 1000000

structure ClockState where
  FPS : Nat
  saveFPS : Nat
  timerRestarts : Nat
deriving DecidableEq

/-- The interval computed inside `controlFrameTimer`:
`uint32_t frameInterval = OneMHz / FPS;`. -/
def frameTimerInterval (fps : Nat) : Nat := OneMHz / fps

/-- `playbackFPS`: the FPS parsed from the filename (a `uint8_t` via sscanf;
an arbitrary byte when the filename does not parse) is clamped to at least
1 (`if (recFPS < 1) recFPS = 1;`), stored into `FPS`, and the frame timer
is restarted. -/
def playbackFPSModel (parsedFPS : Nat) (st : ClockState) : ClockState :=
  { st with FPS := clampFPS parsedFPS, timerRestarts := st.timerRestarts + 1 }

/-- C9: for every parsed FPS value — 0, unparsable garbage, anything — the
frame rate armed by `playbackFPS` is at least 1, so the divisor of
`OneMHz / FPS` in `controlFrameTimer` is never zero during playback. -/
theorem C9_playback_fps_clamped (parsedFPS : Nat) (st : ClockState) :
    1 ≤ (playbackFPSModel parsedFPS st).FPS
    ∧ (playbackFPSModel parsedFPS st).FPS ≠ 0 := by
  simp only [playbackFPSModel, clampFPS]
  by_cases h : parsedFPS < 1
  · simp [h]
  · simp [h]; omega

/-- `setFPS`: with a nonzero argument it sets `FPS`, restarts the frame
timer and records `saveFPS = FPS`; it always returns the (possibly updated)
`FPS`. -/
def setFPSModel (val : Nat) (st : ClockState) : Nat × ClockState :=
  if val ≠ 0 then
    (val, ⟨val, val, st.timerRestarts + 1⟩)
  else (st.FPS, st)

/-- C10: `setFPS 0` is a pure query — it returns the current FPS, leaves
`FPS` and `saveFPS` unchanged and does not restart the frame timer — while
any nonzero argument updates `FPS` and `saveFPS` to it and restarts the
timer exactly once. -/
theorem C10_setFPS_zero_query (st : ClockState) (v : Nat) (hv : v ≠ 0) :
    setFPSModel 0 st = (st.FPS, st)
    ∧ (setFPSModel v st).1 = v
    ∧ (setFPSModel v st).2.FPS = v
    ∧ (setFPSModel v st).2.saveFPS = v
    ∧ (setFPSModel v st).2.timerRestarts = st.timerRestarts + 1 := by
  refine ⟨by simp [setFPSModel], ?_, ?_, ?_, ?_⟩ <;> simp [setFPSModel, hv]

/-- Witness for C10 at FPS 5, query 0 and update 7. -/
theorem C10_setFPS_zero_query_witness :
    setFPSModel 0 ⟨5, 5, 3⟩ = (5, ⟨5, 5, 3⟩)
    ∧ (setFPSModel 7 ⟨5, 5, 3⟩).1 = 7
    ∧ (setFPSModel 7 ⟨5, 5, 3⟩).2.FPS = 7
    ∧ (setFPSModel 7 ⟨5, 5, 3⟩).2.saveFPS = 7
    ∧ (setFPSModel 7 ⟨5, 5, 3⟩).2.timerRestarts = 3 + 1 :=
  C10_setFPS_zero_query ⟨5, 5, 3⟩ 7 (by decide)

/-! ## The close decision of `closeAvi` (C4)

`closeAvi` computes `vidDuration = millis() - startTime` (uint32) and
`vidDurationSecs = lround(vidDuration / 1000.0)`; it renames the temporary
file to its final name when `vidDurationSecs >= minSeconds` and otherwise
removes it.  For `vidDuration < 2^32` the `lround` of the double quotient
equals the integer `(vidDuration + 500) / 1000`: the quotient is exactly
representable at ties (which round away from zero, i.e. up) and elsewhere
lies at least `1/2000` away from a half-integer while the division error is
below `2^-30`. -/

def vidDurationSecs (vidDuration : Nat) : Nat := (vidDuration + 500) / 1000

structure CloseOutcome where
  renamed : Bool
  removed : Bool
deriving DecidableEq

/-- The output disposition of `closeAvi` (lines 383-433): rename the
temporary file to the final name, or remove it. -/
def closeAviModel (minSeconds startTime now : Nat) : CloseOutcome :=
  if minSeconds ≤ vidDurationSecs (usub now startTime) then ⟨true, false⟩
  else ⟨false, true⟩

/-- C4, counterexample: with `minSeconds = 30`, a recording of 29500 ms —
strictly below the 30000 ms minimum — is still renamed, because `lround`
rounds 29.5 s up to 30 s; so "renamed iff elapsed duration at least the
minimum" fails as stated. -/
theorem C4_counterexample :
    (closeAviModel 30 0 29500).renamed = true ∧ usub 29500 0 < 30 * 1000 := by
  decide

/-- C4 (amended): `closeAvi` renames the temporary file exactly when the
elapsed duration rounded to the nearest second is at least `minSeconds` —
equivalently when `minSeconds * 1000 ≤ elapsed + 500` ms — and otherwise
(and only otherwise) removes it; durations up to 500 ms below the minimum
are therefore still renamed, all shorter ones are discarded with no rename. -/
theorem C4_rename_iff (minSeconds startTime now : Nat) :
    ((closeAviModel minSeconds startTime now).renamed = true
      ↔ minSeconds * 1000 ≤ usub now startTime + 500)
    ∧ ((closeAviModel minSeconds startTime now).removed = true
      ↔ ¬ minSeconds * 1000 ≤ usub now startTime + 500) := by
  have hiff : minSeconds ≤ vidDurationSecs (usub now startTime)
      ↔ minSeconds * 1000 ≤ usub now startTime + 500 := by
    unfold vidDurationSecs
    omega
  unfold closeAviModel
  by_cases h : minSeconds ≤ vidDurationSecs (usub now startTime)
  · rw [if_pos h]
    simp [hiff.mp h]
  · rw [if_neg h]
    have hn : ¬ minSeconds * 1000 ≤ usub now startTime + 500 :=
      fun hc => h (hiff.mpr hc)
    simp [hn]
